import Mathlib

/-!
# Verification of the MCAP unindexed iterable source

A shallow embedding of `McapUnindexedIterableSource`
(`packages/suite-base/.../McapUnindexedIterableSource.ts`): record ingestion
(`processRecord` inside `initialize()`), the post-processing that builds the
`Initialization` result, `messageIterator`, and `getBackfillMessages`.

Modelling conventions:
* The byte stream plus the external binary record decoder (`McapStreamReader`,
  from `@mcap/core`, not among the sources of this repository) are abstracted as a
  list of already-decoded typed records.
* The external decoding-plan builder `parseChannel` (from
  `@lichtblick/mcap-support`) is a parameter of type `ParseChannelFn`: it either
  returns a parsed-channel value or fails with an error message, exactly the
  interface the source consumes.
* JavaScript `Map`s are modelled as insertion-ordered association lists
  (`mapGet` / `mapSet`); `Set`s of numbers / strings as duplicate-free lists in
  insertion order.
* `structuredClone` produces a deep copy; since the model is pure, a deep copy
  is the value itself.
* Lodash `_.isEqual` is structural equality, i.e. `DecidableEq` on the record
  structures.
-/

/-- Modelled from the spec: the structured time type of `@lichtblick/rostime`
(not under the sources provided): a second / nanosecond pair. -/
structure Time where
  sec : Nat
  nsec : Nat
deriving DecidableEq

/-- Modelled from the spec: `fromNanoSec` converts a monotonic-nanosecond epoch
value to the structured time type. -/
def fromNanoSec (n : Nat) : Time :=
  { sec := n / 1000000000, nsec := n % 1000000000 }

/-- Modelled from the spec: `compare` of `@lichtblick/rostime` — lexicographic
comparison, seconds first, returning a signed number. -/
def timeCompare (a b : Time) : Int :=
  if a.sec = b.sec then (a.nsec : Int) - (b.nsec : Int) else (a.sec : Int) - (b.sec : Int)

/-- Modelled from the spec: `isLessThan` of `@lichtblick/rostime`. -/
def isLessThan (a b : Time) : Bool :=
  timeCompare a b < 0

/-- Modelled from the spec: `isGreaterThan` of `@lichtblick/rostime`. -/
def isGreaterThan (a b : Time) : Bool :=
  timeCompare a b > 0

/-- Modelled from the spec: `isTimeInRangeInclusive t start stop` of
`@lichtblick/rostime` — the receive time lies within `[start, stop]`
inclusive. -/
def isTimeInRangeInclusive (t start stop : Time) : Bool :=
  timeCompare t start ≥ 0 && timeCompare t stop ≤ 0

/-- A `Schema` record of the MCAP container (`McapTypes.TypedMcapRecords["Schema"]`);
`data` is the opaque type-definition byte blob. -/
structure SchemaRecord where
  id : Nat
  name : String
  encoding : String
  data : List Nat
deriving DecidableEq

/-- A `Channel` record of the MCAP container (`McapTypes.Channel`). -/
structure ChannelRecord where
  id : Nat
  schemaId : Nat
  topic : String
  messageEncoding : String
  metadata : List (String × String)
deriving DecidableEq

/-- A `Message` record of the MCAP container; `logTime` and `publishTime` are
nanosecond epoch values, `data` the raw encoded payload bytes. -/
structure MessageRecord where
  channelId : Nat
  logTime : Nat
  publishTime : Nat
  data : List Nat
deriving DecidableEq

/-- The typed records produced by the binary record decoder
(`McapTypes.TypedMcapRecord`); `other` stands for every record type the
`switch` in `processRecord` ignores via its `default` branch. -/
inductive McapRecord where
  | header (profile : String)
  | metadataRec (name : String) (entries : List (String × String))
  | schema (rec : SchemaRecord)
  | channel (rec : ChannelRecord)
  | message (rec : MessageRecord)
  | other
deriving DecidableEq

/-- The decoding plan returned by the external `parseChannel` capability; only
its `datatypes` table is consumed by this component. -/
structure ParsedChannel where
  datatypes : List (String × String)
deriving DecidableEq

/-- The external decoding-plan builder: given a message-encoding tag and an
optional schema, either a plan or a descriptive error. -/
def ParseChannelFn : Type :=
  String → Option SchemaRecord → Except String ParsedChannel

/-- A player alert (`PlayerAlert`): severity tag plus message (and optional
tip). -/
structure Alert where
  severity : String
  message : String
  tip : Option String := none
deriving DecidableEq

/-- Lookup in a JavaScript `Map` modelled as an insertion-ordered association
list (`Map.prototype.get`). -/
def mapGet {α β : Type} [DecidableEq α] : List (α × β) → α → Option β
  | [], _ => none
  | (k, v) :: rest, k' => if k = k' then some v else mapGet rest k'

/-- `Map.prototype.set`: update in place if the key is present (keeping its
insertion position), append otherwise. -/
def mapSet {α β : Type} [DecidableEq α] : List (α × β) → α → β → List (α × β)
  | [], k, v => [(k, v)]
  | (k0, v0) :: rest, k, v =>
    if k0 = k then (k0, v) :: rest else (k0, v0) :: mapSet rest k v

/-- `Set.prototype.add` on a set modelled as a duplicate-free list in insertion
order. -/
def setAdd {α : Type} [DecidableEq α] (s : List α) (a : α) : List α :=
  if a ∈ s then s else s ++ [a]

/-- A message event as stored in the per-channel buckets
(`MessageEvent<Uint8Array>`). -/
structure MessageEvent where
  topic : String
  receiveTime : Time
  publishTime : Time
  message : List Nat
  sizeInBytes : Nat
  schemaName : String
deriving DecidableEq

/-- The per-channel registry entry stored in `channelInfoById`. -/
structure ChannelInfo where
  channel : ChannelRecord
  parsedChannel : ParsedChannel
  schemaName : Option String
  schemaEncoding : Option String
  schemaData : Option (List Nat)
deriving DecidableEq

/-- The mutable state threaded through `processRecord` during `initialize()`:
alerts, metadata list, errored channel ids, message count, the per-channel
message buckets, the schema and channel registries, the running time bounds and
the declared profile. -/
structure InitState where
  alerts : List Alert
  metadataList : List (String × List (String × String))
  channelIdsWithErrors : List Nat
  messageCount : Nat
  messagesByChannel : List (Nat × List MessageEvent)
  schemasById : List (Nat × SchemaRecord)
  channelInfoById : List (Nat × ChannelInfo)
  startTime : Option Time
  endTime : Option Time
  profile : Option String
deriving DecidableEq

/-- The state at the start of `initialize()`: everything empty. -/
def initialInitState : InitState where
  alerts := []
  metadataList := []
  channelIdsWithErrors := []
  messageCount := 0
  messagesByChannel := []
  schemasById := []
  channelInfoById := []
  startTime := none
  endTime := none
  profile := none

/-- `if (!startTime || isLessThan(receiveTime, startTime)) startTime = receiveTime`. -/
def updatedStart (old : Option Time) (receiveTime : Time) : Option Time :=
  match old with
  | none => some receiveTime
  | some st => if isLessThan receiveTime st then some receiveTime else some st

/-- `if (!endTime || isGreaterThan(receiveTime, endTime)) endTime = receiveTime`. -/
def updatedEnd (old : Option Time) (receiveTime : Time) : Option Time :=
  match old with
  | none => some receiveTime
  | some et => if isGreaterThan receiveTime et then some receiveTime else some et

/-- One step of the `processRecord` closure inside `initialize()`. A thrown
`Error` is modelled as `Except.error` carrying the error message. -/
def processRecord (parseCh : ParseChannelFn) (s : InitState) :
    McapRecord → Except String InitState
  | .other => .ok s
  | .header profile => .ok { s with profile := some profile }
  | .metadataRec name entries =>
    .ok { s with metadataList := s.metadataList ++ [(name, entries)] }
  | .schema rec =>
    match mapGet s.schemasById rec.id with
    | some existingSchema =>
      if existingSchema = rec then
        .ok { s with schemasById := mapSet s.schemasById rec.id rec }
      else
        .error ("differing schemas for id " ++ toString rec.id)
    | none => .ok { s with schemasById := mapSet s.schemasById rec.id rec }
  | .channel rec =>
    match mapGet s.channelInfoById rec.id with
    | some existingInfo =>
      if existingInfo.channel = rec then .ok s
      else .error ("differing channel infos for id " ++ toString rec.id)
    | none =>
      if rec.id ∈ s.channelIdsWithErrors then .ok s
      else
        let schema := mapGet s.schemasById rec.schemaId
        if rec.schemaId ≠ 0 ∧ schema = none then
          .error ("Encountered channel with schema id " ++ toString rec.schemaId ++
            " but no prior schema")
        else
          match parseCh rec.messageEncoding schema with
          | .ok parsedChannel =>
            .ok { s with
              channelInfoById := mapSet s.channelInfoById rec.id
                { channel := rec, parsedChannel,
                  schemaName := schema.map SchemaRecord.name,
                  schemaEncoding := schema.map SchemaRecord.encoding,
                  schemaData := schema.map SchemaRecord.data }
              messagesByChannel := mapSet s.messagesByChannel rec.id [] }
          | .error e =>
            .ok { s with
              channelIdsWithErrors := s.channelIdsWithErrors ++ [rec.id]
              alerts := s.alerts ++
                [{ severity := "error"
                   message := "Error in topic " ++ rec.topic ++ " (channel " ++
                     toString rec.id ++ "): " ++ e }] }
  | .message rec =>
    match mapGet s.channelInfoById rec.channelId, mapGet s.messagesByChannel rec.channelId with
    | some channelInfo, some messages =>
      let receiveTime := fromNanoSec rec.logTime
      .ok { s with
        messageCount := s.messageCount + 1
        startTime := updatedStart s.startTime receiveTime
        endTime := updatedEnd s.endTime receiveTime
        messagesByChannel := mapSet s.messagesByChannel rec.channelId
          (messages ++ [{ topic := channelInfo.channel.topic
                          receiveTime
                          publishTime := fromNanoSec rec.publishTime
                          message := rec.data
                          sizeInBytes := rec.data.length
                          schemaName := channelInfo.schemaName.getD "" }]) }
    | _, _ =>
      if rec.channelId ∈ s.channelIdsWithErrors then .ok s
      else .error ("message for channel " ++ toString rec.channelId ++
        " with no prior channel info")

/-- The record-draining loop of `initialize()`: feed every decoded record
through `processRecord`, aborting on the first thrown error. -/
def processAll (parseCh : ParseChannelFn) (s : InitState) :
    List McapRecord → Except String InitState
  | [] => .ok s
  | r :: rs =>
    match processRecord parseCh s r with
    | .error e => .error e
    | .ok s1 => processAll parseCh s1 rs

/-- A topic entry of the initialization result (`TopicWithDecodingInfo`). -/
structure TopicWithDecodingInfo where
  name : String
  messageEncoding : String
  schemaName : Option String
  schemaData : Option (List Nat)
  schemaEncoding : Option String
deriving DecidableEq

/-- The immutable initialization record returned by `initialize()`
(`Initialization`); `stop` models the field named `end` in the source (a
reserved word here). -/
structure Initialization where
  start : Time
  stop : Time
  topics : List TopicWithDecodingInfo
  datatypes : List (String × String)
  profile : Option String
  alerts : List Alert
  publishersByTopic : List (String × List String)
  topicStats : List (String × Nat)
  metadata : List (String × List (String × String))
deriving DecidableEq

/-- `DURATION_YEAR_SEC`. -/
def DURATION_YEAR_SEC : Nat := 365 * 24 * 60 * 60

/-- Modelled from the spec: the human-readable calendar rendering
(`toRFC3339String` of `@lichtblick/rostime`, not under the sources provided);
its exact text is irrelevant to every property proved here, only that the two
boundary timestamps are rendered into the tip. -/
def toRFC3339String (t : Time) : String :=
  toString t.sec ++ "." ++ toString t.nsec ++ "s"

/-- The exact difference `stop - start` in nanoseconds, as a signed value. -/
def timeDiffNanos (stop start : Time) : Int :=
  ((stop.sec : Int) * 1000000000 + (stop.nsec : Int)) -
    ((start.sec : Int) * 1000000000 + (start.nsec : Int))

/-- The post-processing of `initialize()` once the stream is exhausted: topic
list, per-topic stats, publishers, merged datatypes, defaulted bounds, and the
advisory alerts. The duration check `toSec(subtract(end, start)) >
DURATION_YEAR_SEC` is modelled by the exact nanosecond comparison. -/
def buildInitialization (s : InitState) : Initialization :=
  let infos := s.channelInfoById.map Prod.snd
  let topics := infos.map fun info =>
    { name := info.channel.topic
      messageEncoding := info.channel.messageEncoding
      schemaName := info.schemaName
      schemaData := info.schemaData
      schemaEncoding := info.schemaEncoding : TopicWithDecodingInfo }
  let topicStats := infos.foldl (fun stats info =>
    match mapGet s.messagesByChannel info.channel.id with
    | some msgs => mapSet stats info.channel.topic msgs.length
    | none => stats) []
  let publishersByTopic := infos.foldl (fun pubs info =>
    let publisherId := (mapGet info.channel.metadata "callerid").getD (toString info.channel.id)
    match mapGet pubs info.channel.topic with
    | some publishers => mapSet pubs info.channel.topic (setAdd publishers publisherId)
    | none => mapSet pubs info.channel.topic [publisherId]) []
  let datatypes := infos.foldl (fun dts info =>
    info.parsedChannel.datatypes.foldl (fun d nd => mapSet d nd.1 nd.2) dts) []
  let start := s.startTime.getD { sec := 0, nsec := 0 }
  let stop := s.endTime.getD { sec := 0, nsec := 0 }
  let alerts := s.alerts ++
    (if timeDiffNanos stop start > (DURATION_YEAR_SEC : Int) * 1000000000 then
      [{ severity := "warn"
         message := "This file has an abnormally long duration."
         tip := some ("The start " ++ toRFC3339String start ++ " and end " ++
           toRFC3339String stop ++ " are greater than a year.") }]
    else []) ++
    (if s.messageCount = 0 then
      [{ severity := "warn", message := "This file contains no messages." }]
    else
      [{ severity := "warn"
         message := "This file is unindexed. Unindexed files may have degraded performance."
         tip := some "See the MCAP spec: https://mcap.dev/specification/index.html#summary-section" }])
  { start, stop, topics, datatypes, profile := s.profile, alerts,
    publishersByTopic, topicStats, metadata := s.metadataList }

/-- The private fields the source object keeps for the query engine after
`initialize()`: `#msgEventsByChannel`, `#start`, `#end` (named `stop` here). -/
structure SourceState where
  msgEventsByChannel : List (Nat × List MessageEvent)
  start : Option Time
  stop : Option Time
deriving DecidableEq

/-- How `initialize()` populates the private query-engine fields:
`#msgEventsByChannel = messagesByChannel`, `#start = startTime ?? {0,0}`,
`#end = endTime ?? {0,0}`. -/
def sourceStateAfter (s : InitState) : SourceState where
  msgEventsByChannel := s.messagesByChannel
  start := some (s.startTime.getD { sec := 0, nsec := 0 })
  stop := some (s.endTime.getD { sec := 0, nsec := 0 })

/-- `initialize()` as a whole: the 1 GiB size guard, then the record-draining
loop from the empty state, then post-processing. Returns the initialization
record together with the private state the query methods close over. -/
def initializeSource (parseCh : ParseChannelFn) (size : Nat) (records : List McapRecord) :
    Except String (Initialization × SourceState) :=
  if size > 1024 * 1024 * 1024 then
    .error "Unable to open unindexed MCAP file; unindexed files are limited to 1GB"
  else
    match processAll parseCh initialInitState records with
    | .error e => .error e
    | .ok s => .ok (buildInitialization s, sourceStateAfter s)

/-- One yielded element of `messageIterator` (the `"message-event"` variant of
`IteratorResult`; the constant `type` tag is left implicit). -/
structure IterResult where
  connectionId : Nat
  msgEvent : MessageEvent
deriving DecidableEq

/-- The comparator passed to the final `sort`: by receive time, via
`compare`. -/
def iterLe (a b : IterResult) : Prop :=
  timeCompare a.msgEvent.receiveTime b.msgEvent.receiveTime ≤ 0

instance : DecidableRel iterLe := fun a b =>
  inferInstanceAs (Decidable (timeCompare a.msgEvent.receiveTime b.msgEvent.receiveTime ≤ 0))

/-- `messageIterator(args)`: empty when the topic set is empty or no bounds
exist; otherwise collect, per bucket, the events inside the inclusive range on
a requested topic, and yield them sorted by receive time (JavaScript sort is
stable, hence the stable `insertionSort`). The async generator is modelled by
the finite list of elements it yields. -/
def messageIterator (st : SourceState) (topics : List String)
    (startArg stopArg : Option Time) : List IterResult :=
  let start := startArg <|> st.start
  let stop := stopArg <|> st.stop
  match topics.isEmpty, start, stop with
  | false, some a, some b =>
    List.insertionSort iterLe
      (st.msgEventsByChannel.flatMap fun p =>
        (p.2.filter fun m =>
          isTimeInRangeInclusive m.receiveTime a b && topics.contains m.topic).map
          fun m => { connectionId := p.1, msgEvent := m })
  | _, _, _ => []

/-- All ingested message events, in scan order (bucket insertion order, file
order within a bucket) — the order both query methods traverse. -/
def scanEvents (st : SourceState) : List MessageEvent :=
  st.msgEventsByChannel.flatMap Prod.snd

/-- The selection test of `getBackfillMessages`:
`compare(receiveTime, time) <= 0 && needTopics.has(topic)`. -/
def backfillQual (topics : List String) (t : Time) (m : MessageEvent) : Bool :=
  decide (timeCompare m.receiveTime t ≤ 0) && topics.contains m.topic

/-- `getBackfillMessages(args)`: scan every bucket, overwrite the per-topic
entry with each qualifying event, return the values of the resulting map. -/
def getBackfillMessages (st : SourceState) (topics : List String) (t : Time) :
    List MessageEvent :=
  (st.msgEventsByChannel.foldl (fun acc p =>
    p.2.foldl (fun acc2 m =>
      if backfillQual topics t m then mapSet acc2 m.topic m else acc2) acc) []).map Prod.snd

/-- The last element of `l` satisfying `p`, if any — the value that survives a
left-to-right scan that overwrites on every match. -/
def lastWith {α : Type} (p : α → Bool) : List α → Option α
  | [] => none
  | a :: rest =>
    match lastWith p rest with
    | some b => some b
    | none => if p a then some a else none

/-- One overwrite step of the backfill scan. -/
def backfillStep (topics : List String) (t : Time) (acc : List (String × MessageEvent))
    (m : MessageEvent) : List (String × MessageEvent) :=
  if backfillQual topics t m then mapSet acc m.topic m else acc

/-- The `msgEventsByTopic` map built by `getBackfillMessages` before taking its
values. -/
def backfillMap (st : SourceState) (topics : List String) (t : Time) :
    List (String × MessageEvent) :=
  st.msgEventsByChannel.foldl (fun acc p => p.2.foldl (backfillStep topics t) acc) []

/-- Invariants maintained by `processRecord` along any successful run of
`initialize()`: bucket keys and registry keys coincide, every bucketed event
carries the topic of its registered channel, every bucketed event lies inside the
running time bounds, and errored channel ids are never registered. -/
structure InitInv (s : InitState) : Prop where
  keysEq : s.messagesByChannel.map Prod.fst = s.channelInfoById.map Prod.fst
  bucketTopics : ∀ p ∈ s.messagesByChannel, ∃ info,
    mapGet s.channelInfoById p.1 = some info ∧ ∀ m ∈ p.2, m.topic = info.channel.topic
  bounds : ∀ p ∈ s.messagesByChannel, ∀ m ∈ p.2, ∃ a b,
    s.startTime = some a ∧ s.endTime = some b ∧
    timeCompare a m.receiveTime ≤ 0 ∧ timeCompare m.receiveTime b ≤ 0
  erroredUnregistered : ∀ cid ∈ s.channelIdsWithErrors, mapGet s.channelInfoById cid = none

instance : IsTotal IterResult iterLe :=
  ⟨fun a b => by
    unfold iterLe timeCompare
    by_cases h : a.msgEvent.receiveTime.sec = b.msgEvent.receiveTime.sec <;>
      by_cases h2 : b.msgEvent.receiveTime.sec = a.msgEvent.receiveTime.sec <;>
      simp_all <;> omega⟩

instance : IsTrans IterResult iterLe :=
  ⟨fun a b c h1 h2 => by
    unfold iterLe timeCompare at *
    by_cases hab : a.msgEvent.receiveTime.sec = b.msgEvent.receiveTime.sec <;>
      by_cases hbc : b.msgEvent.receiveTime.sec = c.msgEvent.receiveTime.sec <;>
      by_cases hac : a.msgEvent.receiveTime.sec = c.msgEvent.receiveTime.sec <;>
      simp_all <;> omega⟩

/-! ## Concrete fixtures for witnesses and counterexamples -/

/-- A decoding-plan builder that always succeeds. -/
def okParse : ParseChannelFn := fun _ _ => .ok { datatypes := [] }

/-- A decoding-plan builder that fails exactly on the encoding tag `bad`. -/
def badParse : ParseChannelFn := fun enc _ =>
  if enc = "bad" then .error "unsupported encoding bad" else .ok { datatypes := [] }

def exChannelA : ChannelRecord :=
  { id := 1, schemaId := 0, topic := "/a", messageEncoding := "json", metadata := [] }

def exChannelA2 : ChannelRecord :=
  { id := 2, schemaId := 0, topic := "/a", messageEncoding := "json", metadata := [] }

def exChannelBad : ChannelRecord :=
  { id := 1, schemaId := 0, topic := "/a", messageEncoding := "bad", metadata := [] }

def exChannelBad2 : ChannelRecord :=
  { id := 1, schemaId := 9, topic := "/b", messageEncoding := "json", metadata := [] }

def exMessage (cid t : Nat) : McapRecord :=
  .message { channelId := cid, logTime := t, publishTime := t, data := [1] }

def exSchema1 : SchemaRecord := { id := 1, name := "S", encoding := "ros1msg", data := [7] }

def exRecordsBackfill : List McapRecord := [.channel exChannelA, exMessage 1 5, exMessage 1 3]

def exIniBackfill : Initialization :=
  match initializeSource okParse 0 exRecordsBackfill with
  | .ok p => p.1
  | .error _ => buildInitialization initialInitState

def exStBackfill : SourceState :=
  match initializeSource okParse 0 exRecordsBackfill with
  | .ok p => p.2
  | .error _ => sourceStateAfter initialInitState

def exRecords9 : List McapRecord :=
  [.channel exChannelA, .channel exChannelA2, exMessage 1 5, exMessage 1 3, exMessage 2 7]

def exState9 : InitState :=
  match processAll okParse initialInitState exRecords9 with
  | .ok s => s
  | .error _ => initialInitState

def exInfo1 : ChannelInfo :=
  { channel := exChannelA, parsedChannel := { datatypes := [] },
    schemaName := none, schemaEncoding := none, schemaData := none }

def exInfo2 : ChannelInfo :=
  { channel := exChannelA2, parsedChannel := { datatypes := [] },
    schemaName := none, schemaEncoding := none, schemaData := none }

def exEvent7 : MessageEvent :=
  { topic := "/a", receiveTime := fromNanoSec 7, publishTime := fromNanoSec 7,
    message := [1], sizeInBytes := 1, schemaName := "" }

def exEvent3 : MessageEvent :=
  { topic := "/a", receiveTime := fromNanoSec 3, publishTime := fromNanoSec 3,
    message := [1], sizeInBytes := 1, schemaName := "" }

def exStateErr : InitState :=
  match processAll badParse initialInitState [.channel exChannelBad] with
  | .ok s => s
  | .error _ => initialInitState

def exStateSchema : InitState :=
  match processRecord badParse initialInitState (.schema exSchema1) with
  | .ok s => s
  | .error _ => initialInitState

/-- `true` exactly on `Schema` records. -/
def isSchemaRecord : McapRecord → Bool
  | .schema _ => true
  | _ => false

/-! ## Helper: last element satisfying a predicate -/

theorem lastWith_append {α : Type} (p : α → Bool) (l1 l2 : List α) :
    lastWith p (l1 ++ l2) =
      match lastWith p l2 with
      | some b => some b
      | none => lastWith p l1 := by
  induction l1 with
  | nil =>
    simp only [List.nil_append]
    cases h : lastWith p l2 <;> simp [lastWith]
  | cons a rest ih =>
    have hcons : lastWith p ((a :: rest) ++ l2) =
        match lastWith p (rest ++ l2) with
        | some b => some b
        | none => if p a then some a else none := rfl
    rw [hcons, ih]
    cases h2 : lastWith p l2 <;> rfl

theorem lastWith_eq_none {α : Type} (p : α → Bool) (l : List α)
    (h : ∀ a ∈ l, p a = false) : lastWith p l = none := by
  induction l with
  | nil => rfl
  | cons a rest ih =>
    simp only [lastWith, ih fun x hx => h x (List.mem_cons_of_mem a hx)]
    simp [h a (List.mem_cons_self a rest)]

theorem lastWith_some {α : Type} {p : α → Bool} {b : α} {l : List α}
    (h : lastWith p l = some b) : b ∈ l ∧ p b = true := by
  induction l with
  | nil => simp [lastWith] at h
  | cons a rest ih =>
    simp only [lastWith] at h
    cases hr : lastWith p rest with
    | some c =>
      rw [hr] at h
      have hcb := Option.some.inj h
      subst hcb
      obtain ⟨hm, hp⟩ := ih hr
      exact ⟨List.mem_cons_of_mem a hm, hp⟩
    | none =>
      rw [hr] at h
      by_cases hp : p a = true
      · rw [if_pos hp] at h
        have hab := Option.some.inj h
        subst hab
        exact ⟨List.mem_cons_self a rest, hp⟩
      · rw [if_neg hp] at h
        cases h

/-! ## Helper lemmas about the `Map` model -/

theorem mapGet_mapSet_self {α β : Type} [DecidableEq α] (m : List (α × β)) (k : α) (v : β) :
    mapGet (mapSet m k v) k = some v := by
  induction m with
  | nil => simp [mapGet, mapSet]
  | cons p rest ih =>
    obtain ⟨k0, v0⟩ := p
    by_cases h : k0 = k
    · simp [mapSet, mapGet, h]
    · simp [mapSet, mapGet, h, ih]

theorem mapGet_mapSet_ne {α β : Type} [DecidableEq α] (m : List (α × β)) {k k' : α} (v : β)
    (h : k' ≠ k) : mapGet (mapSet m k v) k' = mapGet m k' := by
  have hkk : ¬ (k = k') := fun he => h he.symm
  induction m with
  | nil => simp [mapGet, mapSet, hkk]
  | cons p rest ih =>
    obtain ⟨k0, v0⟩ := p
    by_cases h1 : k0 = k
    · have h2 : ¬ (k0 = k') := fun he => hkk (h1.symm.trans he)
      simp [mapSet, mapGet, h1, h2, hkk]
    · by_cases h2 : k0 = k'
      · simp [mapSet, mapGet, h1, h2, h]
      · simp [mapSet, mapGet, h1, h2, ih]

theorem mapGet_some_mem {α β : Type} [DecidableEq α] {m : List (α × β)} {k : α} {v : β}
    (h : mapGet m k = some v) : (k, v) ∈ m := by
  induction m with
  | nil => simp [mapGet] at h
  | cons p rest ih =>
    obtain ⟨k0, v0⟩ := p
    simp only [mapGet] at h
    by_cases h1 : k0 = k
    · rw [if_pos h1] at h
      have hv := Option.some.inj h
      subst hv
      subst h1
      exact List.mem_cons_self _ rest
    · rw [if_neg h1] at h
      exact List.mem_cons_of_mem _ (ih h)

theorem mem_mapSet {α β : Type} [DecidableEq α] {m : List (α × β)} {k : α} {v : β}
    {q : α × β} (h : q ∈ mapSet m k v) : q = (k, v) ∨ q ∈ m := by
  induction m with
  | nil =>
    simp [mapSet] at h
    simp [h]
  | cons p rest ih =>
    obtain ⟨k0, v0⟩ := p
    simp only [mapSet] at h
    by_cases h1 : k0 = k
    · rw [if_pos h1] at h
      rcases List.mem_cons.mp h with h2 | h2
      · left; rw [h2, h1]
      · right; exact List.mem_cons_of_mem _ h2
    · rw [if_neg h1] at h
      rcases List.mem_cons.mp h with h2 | h2
      · right; rw [h2]; exact List.mem_cons_self _ rest
      · rcases ih h2 with h3 | h3
        · left; exact h3
        · right; exact List.mem_cons_of_mem _ h3

theorem mapGet_eq_none_iff {α β : Type} [DecidableEq α] (m : List (α × β)) (k : α) :
    mapGet m k = none ↔ k ∉ m.map Prod.fst := by
  induction m with
  | nil => simp [mapGet]
  | cons p rest ih =>
    obtain ⟨k0, v0⟩ := p
    by_cases h : k0 = k
    · subst h
      simp [mapGet]
    · have hk : ¬ (k = k0) := fun he => h he.symm
      simp [mapGet, h, ih, hk]

theorem keys_mapSet_of_some {α β : Type} [DecidableEq α] {m : List (α × β)} {k : α}
    (v : β) {w : β} (h : mapGet m k = some w) :
    (mapSet m k v).map Prod.fst = m.map Prod.fst := by
  induction m with
  | nil => simp [mapGet] at h
  | cons p rest ih =>
    obtain ⟨k0, v0⟩ := p
    simp only [mapGet] at h
    by_cases h1 : k0 = k
    · simp [mapSet, h1]
    · rw [if_neg h1] at h
      simp [mapSet, h1, ih h]

theorem keys_mapSet_of_none {α β : Type} [DecidableEq α] {m : List (α × β)} {k : α}
    (v : β) (h : mapGet m k = none) :
    (mapSet m k v).map Prod.fst = m.map Prod.fst ++ [k] := by
  induction m with
  | nil => simp [mapSet]
  | cons p rest ih =>
    obtain ⟨k0, v0⟩ := p
    simp only [mapGet] at h
    by_cases h1 : k0 = k
    · simp [h1] at h
    · rw [if_neg h1] at h
      simp [mapSet, h1, ih h]

theorem mapSet_get_same {α β : Type} [DecidableEq α] {m : List (α × β)} {k : α} {v : β}
    (h : mapGet m k = some v) : mapSet m k v = m := by
  induction m with
  | nil => simp [mapGet] at h
  | cons p rest ih =>
    obtain ⟨k0, v0⟩ := p
    simp only [mapGet] at h
    by_cases h1 : k0 = k
    · rw [if_pos h1] at h
      have hv := Option.some.inj h
      subst hv
      simp [mapSet, h1]
    · rw [if_neg h1] at h
      simp [mapSet, h1, ih h]

theorem mapGet_of_mem_nodup {α β : Type} [DecidableEq α] {m : List (α × β)} {k : α} {v : β}
    (hn : (m.map Prod.fst).Nodup) (h : (k, v) ∈ m) : mapGet m k = some v := by
  induction m with
  | nil => simp at h
  | cons p rest ih =>
    obtain ⟨k0, v0⟩ := p
    simp only [List.map_cons, List.nodup_cons] at hn
    rcases List.mem_cons.mp h with h1 | h1
    · rw [Prod.mk.injEq] at h1
      obtain ⟨hk, hv⟩ := h1
      subst hk
      subst hv
      simp [mapGet]
    · have hk : ¬ (k0 = k) := by
        intro he
        subst he
        exact hn.1 (List.mem_map_of_mem Prod.fst h1)
      simp [mapGet, hk, ih hn.2 h1]

theorem keys_nodup_mapSet {α β : Type} [DecidableEq α] {m : List (α × β)} (k : α) (v : β)
    (hn : (m.map Prod.fst).Nodup) : ((mapSet m k v).map Prod.fst).Nodup := by
  cases h : mapGet m k with
  | some w => rw [keys_mapSet_of_some v h]; exact hn
  | none =>
    rw [keys_mapSet_of_none v h]
    rw [mapGet_eq_none_iff] at h
    simp [List.nodup_append, hn, h]

/-! ## Helper lemmas about time comparison -/

theorem timeCompare_self (a : Time) : timeCompare a a = 0 := by
  simp [timeCompare]

theorem timeCompare_swap (a b : Time) : timeCompare b a = -timeCompare a b := by
  unfold timeCompare
  by_cases h : a.sec = b.sec
  · rw [if_pos h, if_pos h.symm]
    omega
  · rw [if_neg h, if_neg (fun he => h he.symm)]
    omega

theorem timeCompare_le_trans {a b c : Time} (h1 : timeCompare a b ≤ 0)
    (h2 : timeCompare b c ≤ 0) : timeCompare a c ≤ 0 := by
  unfold timeCompare at *
  by_cases hab : a.sec = b.sec <;> by_cases hbc : b.sec = c.sec <;>
    by_cases hac : a.sec = c.sec <;> simp_all <;> omega

theorem timeCompare_le_total (a b : Time) :
    timeCompare a b ≤ 0 ∨ timeCompare b a ≤ 0 := by
  rw [timeCompare_swap]
  omega


/-! ## Characterization of `getBackfillMessages` -/

theorem getBackfillMessages_eq_map (st : SourceState) (topics : List String) (t : Time) :
    getBackfillMessages st topics t = (backfillMap st topics t).map Prod.snd := rfl

theorem backfillStep_fold_get (topics : List String) (t : Time) (tp : String)
    (ms : List MessageEvent) :
    ∀ acc : List (String × MessageEvent),
      mapGet (ms.foldl (backfillStep topics t) acc) tp =
        match lastWith (fun m => backfillQual topics t m && (m.topic == tp)) ms with
        | some m => some m
        | none => mapGet acc tp := by
  induction ms with
  | nil => intro acc; rfl
  | cons m rest ih =>
    intro acc
    have hfold : (m :: rest).foldl (backfillStep topics t) acc =
        rest.foldl (backfillStep topics t) (backfillStep topics t acc m) := rfl
    rw [hfold, ih]
    cases hr : lastWith (fun m => backfillQual topics t m && (m.topic == tp)) rest with
    | some b => simp only [lastWith, hr]
    | none =>
      simp only [lastWith, hr]
      by_cases hq : backfillQual topics t m = true
      · by_cases htp : m.topic = tp
        · subst htp
          simp [hq, backfillStep, mapGet_mapSet_self]
        · have hbeq : (m.topic == tp) = false := beq_eq_false_iff_ne.mpr htp
          simp [hq, hbeq, backfillStep, mapGet_mapSet_ne _ _ fun he => htp he.symm]
      · have hqf : backfillQual topics t m = false := eq_false_of_ne_true hq
        simp [hqf, backfillStep]

theorem backfillMap_get (st : SourceState) (topics : List String) (t : Time) (tp : String) :
    mapGet (backfillMap st topics t) tp =
      lastWith (fun m => backfillQual topics t m && (m.topic == tp)) (scanEvents st) := by
  suffices h : ∀ (l : List (Nat × List MessageEvent)) (acc : List (String × MessageEvent)),
      mapGet (l.foldl (fun acc p => p.2.foldl (backfillStep topics t) acc) acc) tp =
        match lastWith (fun m => backfillQual topics t m && (m.topic == tp))
            (l.flatMap Prod.snd) with
        | some m => some m
        | none => mapGet acc tp by
    rw [backfillMap, h, scanEvents]
    cases lastWith (fun m => backfillQual topics t m && (m.topic == tp))
      (st.msgEventsByChannel.flatMap Prod.snd) <;> rfl
  intro l
  induction l with
  | nil => intro acc; rfl
  | cons p rest ih =>
    intro acc
    have hfold : ((p :: rest).foldl (fun acc p => p.2.foldl (backfillStep topics t) acc) acc) =
        rest.foldl (fun acc p => p.2.foldl (backfillStep topics t) acc)
          (p.2.foldl (backfillStep topics t) acc) := rfl
    have hflat : (p :: rest).flatMap Prod.snd = p.2 ++ rest.flatMap Prod.snd := rfl
    rw [hfold, ih, hflat,
      lastWith_append (fun m => backfillQual topics t m && (m.topic == tp)) p.2
        (rest.flatMap Prod.snd)]
    cases hr : lastWith (fun m => backfillQual topics t m && (m.topic == tp))
        (rest.flatMap Prod.snd) with
    | some b => rfl
    | none => rw [backfillStep_fold_get]

theorem backfillMap_kv_nodup (st : SourceState) (topics : List String) (t : Time) :
    (∀ q ∈ backfillMap st topics t, q.2.topic = q.1) ∧
      ((backfillMap st topics t).map Prod.fst).Nodup := by
  have hstep : ∀ (ms : List MessageEvent) (acc : List (String × MessageEvent)),
      (∀ q ∈ acc, q.2.topic = q.1) → (acc.map Prod.fst).Nodup →
        (∀ q ∈ ms.foldl (backfillStep topics t) acc, q.2.topic = q.1) ∧
          ((ms.foldl (backfillStep topics t) acc).map Prod.fst).Nodup := by
    intro ms
    induction ms with
    | nil => intro acc h1 h2; exact ⟨h1, h2⟩
    | cons m rest ih =>
      intro acc h1 h2
      refine ih (backfillStep topics t acc m) ?_ ?_
      · intro q hq
        by_cases hqual : backfillQual topics t m = true
        · rw [backfillStep, if_pos hqual] at hq
          rcases mem_mapSet hq with h3 | h3
          · rw [h3]
          · exact h1 q h3
        · rw [backfillStep, if_neg hqual] at hq
          exact h1 q hq
      · by_cases hqual : backfillQual topics t m = true
        · rw [backfillStep, if_pos hqual]
          exact keys_nodup_mapSet _ _ h2
        · rw [backfillStep, if_neg hqual]
          exact h2
  suffices h : ∀ (l : List (Nat × List MessageEvent)) (acc : List (String × MessageEvent)),
      (∀ q ∈ acc, q.2.topic = q.1) → (acc.map Prod.fst).Nodup →
        (∀ q ∈ l.foldl (fun acc p => p.2.foldl (backfillStep topics t) acc) acc, q.2.topic = q.1) ∧
          ((l.foldl (fun acc p => p.2.foldl (backfillStep topics t) acc) acc).map Prod.fst).Nodup by
    exact h st.msgEventsByChannel [] (by intro q hq; cases hq) (by simp)
  intro l
  induction l with
  | nil => intro acc h1 h2; exact ⟨h1, h2⟩
  | cons p rest ih =>
    intro acc h1 h2
    obtain ⟨h3, h4⟩ := hstep p.2 acc h1 h2
    exact ih _ h3 h4

theorem mem_getBackfillMessages_iff (st : SourceState) (topics : List String) (t : Time)
    (m : MessageEvent) :
    m ∈ getBackfillMessages st topics t ↔
      lastWith (fun x => backfillQual topics t x && (x.topic == m.topic))
        (scanEvents st) = some m := by
  obtain ⟨hkv, hnd⟩ := backfillMap_kv_nodup st topics t
  rw [getBackfillMessages_eq_map]
  constructor
  · intro hm
    rcases List.mem_map.mp hm with ⟨q, hq, hq2⟩
    have hkey : q.1 = m.topic := by rw [← hq2]; exact (hkv q hq).symm
    have hget : mapGet (backfillMap st topics t) m.topic = some m := by
      rw [← hkey, ← hq2]
      exact mapGet_of_mem_nodup hnd (by rw [show (q.1, q.2) = q from rfl]; exact hq)
    rw [← backfillMap_get st topics t m.topic]
    exact hget
  · intro hlw
    have hget : mapGet (backfillMap st topics t) m.topic = some m := by
      rw [backfillMap_get st topics t m.topic]
      exact hlw
    exact List.mem_map.mpr ⟨(m.topic, m), mapGet_some_mem hget, rfl⟩

/-! ## Characterization of the per-topic stats fold -/

theorem buildInitialization_topicStats (s : InitState) :
    (buildInitialization s).topicStats =
      (s.channelInfoById.map Prod.snd).foldl (fun stats info =>
        match mapGet s.messagesByChannel info.channel.id with
        | some msgs => mapSet stats info.channel.topic msgs.length
        | none => stats) [] := rfl

theorem statsFold_get (buckets : List (Nat × List MessageEvent)) (tp : String)
    (infos : List ChannelInfo) :
    ∀ acc : List (String × Nat),
      mapGet (infos.foldl (fun stats info =>
          match mapGet buckets info.channel.id with
          | some msgs => mapSet stats info.channel.topic msgs.length
          | none => stats) acc) tp =
        match lastWith (fun info =>
            (mapGet buckets info.channel.id).isSome && (info.channel.topic == tp)) infos with
        | some info => (mapGet buckets info.channel.id).map List.length
        | none => mapGet acc tp := by
  induction infos with
  | nil => intro acc; rfl
  | cons info rest ih =>
    intro acc
    have hfold : (info :: rest).foldl (fun stats info =>
        match mapGet buckets info.channel.id with
        | some msgs => mapSet stats info.channel.topic msgs.length
        | none => stats) acc =
      rest.foldl (fun stats info =>
        match mapGet buckets info.channel.id with
        | some msgs => mapSet stats info.channel.topic msgs.length
        | none => stats)
        (match mapGet buckets info.channel.id with
         | some msgs => mapSet acc info.channel.topic msgs.length
         | none => acc) := rfl
    rw [hfold, ih]
    cases hr : lastWith (fun info =>
        (mapGet buckets info.channel.id).isSome && (info.channel.topic == tp)) rest with
    | some b => simp only [lastWith, hr]
    | none =>
      simp only [lastWith, hr]
      by_cases hp : ((mapGet buckets info.channel.id).isSome && (info.channel.topic == tp)) = true
      · rw [if_pos hp]
        rw [Bool.and_eq_true] at hp
        obtain ⟨hsome, htp⟩ := hp
        have htp2 : info.channel.topic = tp := eq_of_beq htp
        subst htp2
        cases hb : mapGet buckets info.channel.id with
        | none => rw [hb] at hsome; cases hsome
        | some msgs => simp [hb, mapGet_mapSet_self]
      · rw [if_neg hp]
        cases hb : mapGet buckets info.channel.id with
        | none => rfl
        | some msgs =>
          rw [hb] at hp
          simp only [Option.isSome_some, Bool.true_and] at hp
          have hne : info.channel.topic ≠ tp := by
            intro he
            exact hp (by rw [he]; exact beq_self_eq_true tp)
          exact mapGet_mapSet_ne _ _ fun he => hne he.symm

/-! ## Invariants of the ingestion state -/

theorem initInv_initial : InitInv initialInitState := by
  constructor
  · rfl
  · intro p hp; cases hp
  · intro p hp; cases hp
  · intro cid hc; cases hc

theorem isLessThan_eq_true_iff (a b : Time) : isLessThan a b = true ↔ timeCompare a b < 0 := by
  simp [isLessThan]

theorem isGreaterThan_eq_true_iff (a b : Time) : isGreaterThan a b = true ↔ timeCompare a b > 0 := by
  simp [isGreaterThan]

theorem timeCompare_le_of_not_lt {a b : Time} (h : ¬ timeCompare a b < 0) :
    timeCompare b a ≤ 0 := by
  rw [timeCompare_swap]
  omega

theorem newStart_le (old : Option Time) (rt : Time) :
    ∃ a1, updatedStart old rt = some a1 ∧
      timeCompare a1 rt ≤ 0 ∧ ∀ a0, old = some a0 → timeCompare a1 a0 ≤ 0 := by
  cases old with
  | none =>
    refine ⟨rt, rfl, (timeCompare_self rt).le, ?_⟩
    intro a0 h
    cases h
  | some st =>
    by_cases hlt : isLessThan rt st = true
    · refine ⟨rt, ?_, (timeCompare_self rt).le, ?_⟩
      · show (if isLessThan rt st then some rt else some st) = some rt
        rw [if_pos hlt]
      · intro a0 h
        have ha : st = a0 := Option.some.inj h
        subst ha
        have hc := (isLessThan_eq_true_iff rt st).mp hlt
        omega
    · refine ⟨st, ?_, ?_, ?_⟩
      · show (if isLessThan rt st then some rt else some st) = some st
        rw [if_neg hlt]
      · have hnot : ¬ timeCompare rt st < 0 := fun hcon =>
          hlt ((isLessThan_eq_true_iff rt st).mpr hcon)
        exact timeCompare_le_of_not_lt hnot
      · intro a0 h
        have ha : st = a0 := Option.some.inj h
        subst ha
        exact (timeCompare_self st).le

theorem newEnd_ge (old : Option Time) (rt : Time) :
    ∃ b1, updatedEnd old rt = some b1 ∧
      timeCompare rt b1 ≤ 0 ∧ ∀ b0, old = some b0 → timeCompare b0 b1 ≤ 0 := by
  cases old with
  | none =>
    refine ⟨rt, rfl, (timeCompare_self rt).le, ?_⟩
    intro b0 h
    cases h
  | some et =>
    by_cases hgt : isGreaterThan rt et = true
    · refine ⟨rt, ?_, (timeCompare_self rt).le, ?_⟩
      · show (if isGreaterThan rt et then some rt else some et) = some rt
        rw [if_pos hgt]
      · intro b0 h
        have hb : et = b0 := Option.some.inj h
        subst hb
        have h1 := (isGreaterThan_eq_true_iff rt et).mp hgt
        have h2 := timeCompare_swap rt et
        omega
    · refine ⟨et, ?_, ?_, ?_⟩
      · show (if isGreaterThan rt et then some rt else some et) = some et
        rw [if_neg hgt]
      · have hnot : ¬ timeCompare rt et > 0 := fun hcon =>
          hgt ((isGreaterThan_eq_true_iff rt et).mpr hcon)
        omega
      · intro b0 h
        have hb : et = b0 := Option.some.inj h
        subst hb
        exact (timeCompare_self et).le

theorem processRecord_initInv {parseCh : ParseChannelFn} {s s1 : InitState} {r : McapRecord}
    (h : processRecord parseCh s r = .ok s1) (inv : InitInv s) : InitInv s1 := by
  cases r with
  | other =>
    simp only [processRecord, Except.ok.injEq] at h
    subst h
    exact inv
  | header profile =>
    simp only [processRecord, Except.ok.injEq] at h
    subst h
    exact ⟨inv.keysEq, inv.bucketTopics, inv.bounds, inv.erroredUnregistered⟩
  | metadataRec name entries =>
    simp only [processRecord, Except.ok.injEq] at h
    subst h
    exact ⟨inv.keysEq, inv.bucketTopics, inv.bounds, inv.erroredUnregistered⟩
  | schema rec =>
    simp only [processRecord] at h
    cases hg : mapGet s.schemasById rec.id with
    | some ex =>
      simp only [hg] at h
      by_cases heq : ex = rec
      · rw [if_pos heq, Except.ok.injEq] at h
        subst h
        exact ⟨inv.keysEq, inv.bucketTopics, inv.bounds, inv.erroredUnregistered⟩
      · rw [if_neg heq] at h
        exact Except.noConfusion h
    | none =>
      simp only [hg, Except.ok.injEq] at h
      subst h
      exact ⟨inv.keysEq, inv.bucketTopics, inv.bounds, inv.erroredUnregistered⟩
  | channel rec =>
    simp only [processRecord] at h
    cases hi : mapGet s.channelInfoById rec.id with
    | some existingInfo =>
      simp only [hi] at h
      by_cases heq : existingInfo.channel = rec
      · rw [if_pos heq, Except.ok.injEq] at h
        subst h
        exact inv
      · rw [if_neg heq] at h
        exact Except.noConfusion h
    | none =>
      simp only [hi] at h
      by_cases herr : rec.id ∈ s.channelIdsWithErrors
      · rw [if_pos herr, Except.ok.injEq] at h
        subst h
        exact inv
      · rw [if_neg herr] at h
        by_cases hguard : rec.schemaId ≠ 0 ∧ mapGet s.schemasById rec.schemaId = none
        · rw [if_pos hguard] at h
          exact Except.noConfusion h
        · rw [if_neg hguard] at h
          cases hp : parseCh rec.messageEncoding (mapGet s.schemasById rec.schemaId) with
          | ok parsed =>
            simp only [hp, Except.ok.injEq] at h
            subst h
            have hbnone : mapGet s.messagesByChannel rec.id = none := by
              rw [mapGet_eq_none_iff, inv.keysEq, ← mapGet_eq_none_iff]
              exact hi
            constructor
            · show (mapSet s.messagesByChannel rec.id []).map Prod.fst =
                (mapSet s.channelInfoById rec.id _).map Prod.fst
              rw [keys_mapSet_of_none _ hbnone, keys_mapSet_of_none _ hi, inv.keysEq]
            · intro p hp2
              rcases mem_mapSet hp2 with hnew | hold
              · subst hnew
                refine ⟨_, mapGet_mapSet_self _ _ _, ?_⟩
                intro m hm
                cases hm
              · obtain ⟨info, hinfo, htp⟩ := inv.bucketTopics p hold
                have hne : p.1 ≠ rec.id := by
                  intro he
                  rw [he, hi] at hinfo
                  exact Option.noConfusion hinfo
                exact ⟨info, by rw [mapGet_mapSet_ne _ _ hne]; exact hinfo, htp⟩
            · intro p hp2 m hm
              rcases mem_mapSet hp2 with hnew | hold
              · subst hnew
                cases hm
              · exact inv.bounds p hold m hm
            · intro cid hc
              have hne : cid ≠ rec.id := fun he => herr (he ▸ hc)
              rw [mapGet_mapSet_ne _ _ hne]
              exact inv.erroredUnregistered cid hc
          | error e =>
            simp only [hp, Except.ok.injEq] at h
            subst h
            refine ⟨inv.keysEq, inv.bucketTopics, inv.bounds, ?_⟩
            intro cid hc
            rcases List.mem_append.mp hc with hold | hnew
            · exact inv.erroredUnregistered cid hold
            · have hce : cid = rec.id := List.mem_singleton.mp hnew
              subst hce
              exact hi
  | message rec =>
    simp only [processRecord] at h
    cases hc : mapGet s.channelInfoById rec.channelId with
    | none =>
      simp only [hc] at h
      by_cases herr : rec.channelId ∈ s.channelIdsWithErrors
      · rw [if_pos herr, Except.ok.injEq] at h
        subst h
        exact inv
      · rw [if_neg herr] at h
        exact Except.noConfusion h
    | some channelInfo =>
      simp only [hc] at h
      cases hb : mapGet s.messagesByChannel rec.channelId with
      | none =>
        simp only [hb] at h
        by_cases herr : rec.channelId ∈ s.channelIdsWithErrors
        · rw [if_pos herr, Except.ok.injEq] at h
          subst h
          exact inv
        · rw [if_neg herr] at h
          exact Except.noConfusion h
      | some msgs =>
        simp only [hb, Except.ok.injEq] at h
        subst h
        obtain ⟨a1, ha1, ha1rt, ha1old⟩ := newStart_le s.startTime (fromNanoSec rec.logTime)
        obtain ⟨b1, hb1, hrtb1, hb1old⟩ := newEnd_ge s.endTime (fromNanoSec rec.logTime)
        constructor
        · show (mapSet s.messagesByChannel rec.channelId _).map Prod.fst =
            s.channelInfoById.map Prod.fst
          rw [keys_mapSet_of_some _ hb]
          exact inv.keysEq
        · intro p hp2
          rcases mem_mapSet hp2 with hnew | hold
          · subst hnew
            refine ⟨channelInfo, hc, ?_⟩
            intro m hm
            rcases List.mem_append.mp hm with hm1 | hm2
            · obtain ⟨info0, hinfo0, htp0⟩ := inv.bucketTopics _ (mapGet_some_mem hb)
              have hie : info0 = channelInfo := Option.some.inj (hinfo0.symm.trans hc)
              subst hie
              exact htp0 m hm1
            · have hmeq := List.mem_singleton.mp hm2
              subst hmeq
              rfl
          · exact inv.bucketTopics p hold
        · intro p hp2 m hm
          rcases mem_mapSet hp2 with hnew | hold
          · subst hnew
            rcases List.mem_append.mp hm with hm1 | hm2
            · obtain ⟨a0, b0, ha0, hb0, h1, h2⟩ := inv.bounds _ (mapGet_some_mem hb) m hm1
              exact ⟨a1, b1, ha1, hb1, timeCompare_le_trans (ha1old a0 ha0) h1,
                timeCompare_le_trans h2 (hb1old b0 hb0)⟩
            · have hmeq := List.mem_singleton.mp hm2
              subst hmeq
              exact ⟨a1, b1, ha1, hb1, ha1rt, hrtb1⟩
          · obtain ⟨a0, b0, ha0, hb0, h1, h2⟩ := inv.bounds p hold m hm
            exact ⟨a1, b1, ha1, hb1, timeCompare_le_trans (ha1old a0 ha0) h1,
              timeCompare_le_trans h2 (hb1old b0 hb0)⟩
        · intro cid hcid
          exact inv.erroredUnregistered cid hcid

theorem processAll_initInv {parseCh : ParseChannelFn} :
    ∀ {rs : List McapRecord} {s s1 : InitState},
      processAll parseCh s rs = .ok s1 → InitInv s → InitInv s1 := by
  intro rs
  induction rs with
  | nil =>
    intro s s1 h inv
    simp only [processAll, Except.ok.injEq] at h
    subst h
    exact inv
  | cons r rest ih =>
    intro s s1 h inv
    simp only [processAll] at h
    cases hr : processRecord parseCh s r with
    | error e =>
      rw [hr] at h
      exact Except.noConfusion h
    | ok s2 =>
      rw [hr] at h
      exact ih h (processRecord_initInv hr inv)

/-! ## `messageIterator`: filtering and completeness -/

theorem contains_iff_mem (l : List String) (a : String) : l.contains a = true ↔ a ∈ l :=
  List.elem_iff

theorem flatMap_congr_mem {α β : Type} {l : List α} {f g : α → List β}
    (h : ∀ a ∈ l, f a = g a) : l.flatMap f = l.flatMap g := by
  induction l with
  | nil => rfl
  | cons a rest ih =>
    simp only [List.flatMap_cons, h a (List.mem_cons_self a rest),
      ih fun x hx => h x (List.mem_cons_of_mem a hx)]

theorem messageIterator_eq_of_some {st : SourceState} {a b : Time}
    (ha : st.start = some a) (hb : st.stop = some b) (topics : List String) :
    messageIterator st topics none none =
      if topics.isEmpty then []
      else
        List.insertionSort iterLe
          (st.msgEventsByChannel.flatMap fun p =>
            (p.2.filter fun m =>
              isTimeInRangeInclusive m.receiveTime a b && topics.contains m.topic).map
              fun m => { connectionId := p.1, msgEvent := m }) := by
  simp only [messageIterator, Option.none_orElse, ha, hb]
  cases htop : topics.isEmpty <;> simp [htop]

theorem mem_messageIterator {st : SourceState} {topics : List String} {s0 e0 : Time}
    {r : IterResult} (h : r ∈ messageIterator st topics (some s0) (some e0)) :
    isTimeInRangeInclusive r.msgEvent.receiveTime s0 e0 = true ∧
      topics.contains r.msgEvent.topic = true := by
  simp only [messageIterator, Option.some_orElse] at h
  cases htop : topics.isEmpty with
  | true =>
    rw [htop] at h
    cases h
  | false =>
    rw [htop] at h
    have h2 := (List.perm_insertionSort iterLe _).mem_iff.mp h
    rcases List.mem_flatMap.mp h2 with ⟨p, _, hrp⟩
    rcases List.mem_map.mp hrp with ⟨m, hmf, hrm⟩
    obtain ⟨_, hcond⟩ := List.mem_filter.mp hmf
    rw [Bool.and_eq_true] at hcond
    rw [← hrm]
    exact hcond

theorem messageIterator_full {parseCh : ParseChannelFn} {records : List McapRecord}
    {s : InitState} (h : processAll parseCh initialInitState records = .ok s) :
    ((messageIterator (sourceStateAfter s)
        ((s.channelInfoById.map Prod.snd).map fun info => info.channel.topic) none none).map
        fun r => r.msgEvent).Perm (scanEvents (sourceStateAfter s)) ∧
      List.Sorted iterLe (messageIterator (sourceStateAfter s)
        ((s.channelInfoById.map Prod.snd).map fun info => info.channel.topic) none none) := by
  have inv : InitInv s := processAll_initInv h initInv_initial
  have ha : (sourceStateAfter s).start = some (s.startTime.getD { sec := 0, nsec := 0 }) := rfl
  have hb : (sourceStateAfter s).stop = some (s.endTime.getD { sec := 0, nsec := 0 }) := rfl
  rw [messageIterator_eq_of_some ha hb]
  cases htop : ((s.channelInfoById.map Prod.snd).map fun info => info.channel.topic).isEmpty with
  | true =>
    have hinfo : s.channelInfoById = [] := by
      have := List.isEmpty_iff.mp htop
      rcases List.map_eq_nil_iff.mp this with h2
      exact List.map_eq_nil_iff.mp h2
    have hbuckets : s.messagesByChannel = [] := by
      have hk := inv.keysEq
      rw [hinfo] at hk
      simp only [List.map_nil] at hk
      exact List.map_eq_nil_iff.mp hk
    rw [if_pos rfl]
    constructor
    · show List.Perm [] (scanEvents (sourceStateAfter s))
      have : scanEvents (sourceStateAfter s) = [] := by
        show s.messagesByChannel.flatMap Prod.snd = []
        rw [hbuckets]
        rfl
      rw [this]
    · exact List.sorted_nil
  | false =>
    rw [if_neg Bool.false_ne_true]
    have hcollect :
        (sourceStateAfter s).msgEventsByChannel.flatMap (fun p =>
          (p.2.filter fun m =>
            isTimeInRangeInclusive m.receiveTime (s.startTime.getD { sec := 0, nsec := 0 })
              (s.endTime.getD { sec := 0, nsec := 0 }) &&
            (((s.channelInfoById.map Prod.snd).map fun info => info.channel.topic).contains
              m.topic)).map
            fun m => ({ connectionId := p.1, msgEvent := m } : IterResult)) =
        (sourceStateAfter s).msgEventsByChannel.flatMap (fun p =>
          p.2.map fun m => ({ connectionId := p.1, msgEvent := m } : IterResult)) := by
      apply flatMap_congr_mem
      intro p hp
      have hfilter : p.2.filter (fun m =>
          isTimeInRangeInclusive m.receiveTime (s.startTime.getD { sec := 0, nsec := 0 })
            (s.endTime.getD { sec := 0, nsec := 0 }) &&
          (((s.channelInfoById.map Prod.snd).map fun info => info.channel.topic).contains
            m.topic)) = p.2 := by
        rw [List.filter_eq_self]
        intro m hm
        obtain ⟨a0, b0, ha0, hb0, h1, h2⟩ := inv.bounds p hp m hm
        obtain ⟨info, hinfo, htpc⟩ := inv.bucketTopics p hp
        rw [Bool.and_eq_true]
        constructor
        · rw [ha0, hb0]
          simp only [Option.getD_some, isTimeInRangeInclusive]
          rw [Bool.and_eq_true]
          constructor
          · simp only [decide_eq_true_eq]
            have := timeCompare_swap a0 m.receiveTime
            omega
          · simp only [decide_eq_true_eq]
            exact h2
        · rw [contains_iff_mem]
          rw [htpc m hm]
          exact List.mem_map_of_mem (fun info : ChannelInfo => info.channel.topic)
            (List.mem_map_of_mem Prod.snd (mapGet_some_mem hinfo))
      rw [hfilter]
    rw [hcollect]
    constructor
    · have hperm := (List.perm_insertionSort iterLe
        ((sourceStateAfter s).msgEventsByChannel.flatMap fun p =>
          p.2.map fun m => ({ connectionId := p.1, msgEvent := m } : IterResult))).map
        fun r => r.msgEvent
      refine hperm.trans ?_
      have hmap : (((sourceStateAfter s).msgEventsByChannel.flatMap fun p =>
          p.2.map fun m => ({ connectionId := p.1, msgEvent := m } : IterResult)).map
          fun r => r.msgEvent) = scanEvents (sourceStateAfter s) := by
        rw [List.map_flatMap]
        apply flatMap_congr_mem
        intro p _
        rw [List.map_map]
        show p.2.map (fun m => m) = p.2
        exact List.map_id' p.2
      rw [hmap]
    · exact List.sorted_insertionSort iterLe _

/-! ## Reprocessing, redefinition and errored-channel behaviour -/

theorem processRecord_schema_idem {parseCh : ParseChannelFn} {s s1 : InitState}
    {rec : SchemaRecord} (h : processRecord parseCh s (.schema rec) = .ok s1) :
    processRecord parseCh s1 (.schema rec) = .ok s1 := by
  simp only [processRecord] at h
  cases hg : mapGet s.schemasById rec.id with
  | some ex =>
    simp only [hg] at h
    by_cases heq : ex = rec
    · rw [if_pos heq, Except.ok.injEq] at h
      subst h
      have hget : mapGet (mapSet s.schemasById rec.id rec) rec.id = some rec :=
        mapGet_mapSet_self _ _ _
      simp only [processRecord, hget, mapSet_get_same hget]
      simp
    · rw [if_neg heq] at h
      exact Except.noConfusion h
  | none =>
    simp only [hg, Except.ok.injEq] at h
    subst h
    have hget : mapGet (mapSet s.schemasById rec.id rec) rec.id = some rec :=
      mapGet_mapSet_self _ _ _
    simp only [processRecord, hget, mapSet_get_same hget]
    simp

theorem processRecord_channel_idem {parseCh : ParseChannelFn} {s s1 : InitState}
    {rec : ChannelRecord} (h : processRecord parseCh s (.channel rec) = .ok s1) :
    processRecord parseCh s1 (.channel rec) = .ok s1 := by
  simp only [processRecord] at h
  cases hi : mapGet s.channelInfoById rec.id with
  | some existingInfo =>
    simp only [hi] at h
    by_cases heq : existingInfo.channel = rec
    · rw [if_pos heq, Except.ok.injEq] at h
      subst h
      simp only [processRecord, hi]
      rw [if_pos heq]
    · rw [if_neg heq] at h
      exact Except.noConfusion h
  | none =>
    simp only [hi] at h
    by_cases herr : rec.id ∈ s.channelIdsWithErrors
    · rw [if_pos herr, Except.ok.injEq] at h
      subst h
      simp only [processRecord, hi]
      rw [if_pos herr]
    · rw [if_neg herr] at h
      by_cases hguard : rec.schemaId ≠ 0 ∧ mapGet s.schemasById rec.schemaId = none
      · rw [if_pos hguard] at h
        exact Except.noConfusion h
      · rw [if_neg hguard] at h
        cases hp : parseCh rec.messageEncoding (mapGet s.schemasById rec.schemaId) with
        | ok parsed =>
          simp only [hp, Except.ok.injEq] at h
          subst h
          have hget : mapGet (mapSet s.channelInfoById rec.id
              { channel := rec, parsedChannel := parsed,
                schemaName := (mapGet s.schemasById rec.schemaId).map SchemaRecord.name,
                schemaEncoding := (mapGet s.schemasById rec.schemaId).map SchemaRecord.encoding,
                schemaData := (mapGet s.schemasById rec.schemaId).map SchemaRecord.data })
              rec.id = some _ := mapGet_mapSet_self _ _ _
          simp only [processRecord, hget]
          simp
        | error e =>
          simp only [hp, Except.ok.injEq] at h
          subst h
          simp only [processRecord, hi]
          rw [if_pos (List.mem_append_right _ (List.mem_singleton.mpr rfl))]

theorem processRecord_schema_differing {parseCh : ParseChannelFn} {s : InitState}
    {rec : SchemaRecord} {ex : SchemaRecord} (hg : mapGet s.schemasById rec.id = some ex)
    (hne : ex ≠ rec) :
    processRecord parseCh s (.schema rec) =
      .error ("differing schemas for id " ++ toString rec.id) := by
  simp only [processRecord, hg]
  rw [if_neg hne]

theorem processRecord_channel_differing {parseCh : ParseChannelFn} {s : InitState}
    {rec : ChannelRecord} {info : ChannelInfo}
    (hi : mapGet s.channelInfoById rec.id = some info) (hne : info.channel ≠ rec) :
    processRecord parseCh s (.channel rec) =
      .error ("differing channel infos for id " ++ toString rec.id) := by
  simp only [processRecord, hi]
  rw [if_neg hne]

theorem processAll_cons_error {parseCh : ParseChannelFn} {s : InitState} {r : McapRecord}
    {rs : List McapRecord} {e : String} (h : processRecord parseCh s r = .error e) :
    processAll parseCh s (r :: rs) = .error e := by
  simp only [processAll, h]

theorem processRecord_errored_skip {parseCh : ParseChannelFn} {s : InitState}
    {rec : ChannelRecord} (hinfo : mapGet s.channelInfoById rec.id = none)
    (hmem : rec.id ∈ s.channelIdsWithErrors) :
    processRecord parseCh s (.channel rec) = .ok s := by
  simp only [processRecord, hinfo]
  rw [if_pos hmem]

theorem processRecord_errored_persist {parseCh : ParseChannelFn} {s s1 : InitState}
    {r : McapRecord} {cid : Nat} (h : processRecord parseCh s r = .ok s1)
    (hmem : cid ∈ s.channelIdsWithErrors)
    (hinfo : mapGet s.channelInfoById cid = none) :
    cid ∈ s1.channelIdsWithErrors ∧ mapGet s1.channelInfoById cid = none := by
  cases r with
  | other =>
    simp only [processRecord, Except.ok.injEq] at h
    subst h
    exact ⟨hmem, hinfo⟩
  | header profile =>
    simp only [processRecord, Except.ok.injEq] at h
    subst h
    exact ⟨hmem, hinfo⟩
  | metadataRec name entries =>
    simp only [processRecord, Except.ok.injEq] at h
    subst h
    exact ⟨hmem, hinfo⟩
  | schema rec =>
    simp only [processRecord] at h
    cases hg : mapGet s.schemasById rec.id with
    | some ex =>
      simp only [hg] at h
      by_cases heq : ex = rec
      · rw [if_pos heq, Except.ok.injEq] at h
        subst h
        exact ⟨hmem, hinfo⟩
      · rw [if_neg heq] at h
        exact Except.noConfusion h
    | none =>
      simp only [hg, Except.ok.injEq] at h
      subst h
      exact ⟨hmem, hinfo⟩
  | channel rec =>
    simp only [processRecord] at h
    cases hi : mapGet s.channelInfoById rec.id with
    | some existingInfo =>
      simp only [hi] at h
      by_cases heq : existingInfo.channel = rec
      · rw [if_pos heq, Except.ok.injEq] at h
        subst h
        exact ⟨hmem, hinfo⟩
      · rw [if_neg heq] at h
        exact Except.noConfusion h
    | none =>
      simp only [hi] at h
      by_cases herr : rec.id ∈ s.channelIdsWithErrors
      · rw [if_pos herr, Except.ok.injEq] at h
        subst h
        exact ⟨hmem, hinfo⟩
      · rw [if_neg herr] at h
        by_cases hguard : rec.schemaId ≠ 0 ∧ mapGet s.schemasById rec.schemaId = none
        · rw [if_pos hguard] at h
          exact Except.noConfusion h
        · rw [if_neg hguard] at h
          cases hp : parseCh rec.messageEncoding (mapGet s.schemasById rec.schemaId) with
          | ok parsed =>
            simp only [hp, Except.ok.injEq] at h
            subst h
            have hne : cid ≠ rec.id := fun he => herr (he ▸ hmem)
            exact ⟨hmem, by rw [mapGet_mapSet_ne _ _ hne]; exact hinfo⟩
          | error e =>
            simp only [hp, Except.ok.injEq] at h
            subst h
            exact ⟨List.mem_append_left _ hmem, hinfo⟩
  | message rec =>
    simp only [processRecord] at h
    cases hc : mapGet s.channelInfoById rec.channelId with
    | none =>
      simp only [hc] at h
      by_cases herr : rec.channelId ∈ s.channelIdsWithErrors
      · rw [if_pos herr, Except.ok.injEq] at h
        subst h
        exact ⟨hmem, hinfo⟩
      · rw [if_neg herr] at h
        exact Except.noConfusion h
    | some channelInfo =>
      simp only [hc] at h
      cases hb : mapGet s.messagesByChannel rec.channelId with
      | none =>
        simp only [hb] at h
        by_cases herr : rec.channelId ∈ s.channelIdsWithErrors
        · rw [if_pos herr, Except.ok.injEq] at h
          subst h
          exact ⟨hmem, hinfo⟩
        · rw [if_neg herr] at h
          exact Except.noConfusion h
      | some msgs =>
        simp only [hb, Except.ok.injEq] at h
        subst h
        exact ⟨hmem, hinfo⟩

theorem processAll_errored_persist {parseCh : ParseChannelFn} :
    ∀ {rs : List McapRecord} {s s1 : InitState} {cid : Nat},
      processAll parseCh s rs = .ok s1 → cid ∈ s.channelIdsWithErrors →
      mapGet s.channelInfoById cid = none →
      cid ∈ s1.channelIdsWithErrors ∧ mapGet s1.channelInfoById cid = none := by
  intro rs
  induction rs with
  | nil =>
    intro s s1 cid h hmem hinfo
    simp only [processAll, Except.ok.injEq] at h
    subst h
    exact ⟨hmem, hinfo⟩
  | cons r rest ih =>
    intro s s1 cid h hmem hinfo
    simp only [processAll] at h
    cases hr : processRecord parseCh s r with
    | error e =>
      rw [hr] at h
      exact Except.noConfusion h
    | ok s2 =>
      rw [hr] at h
      obtain ⟨hm2, hi2⟩ := processRecord_errored_persist hr hmem hinfo
      exact ih h hm2 hi2

/-! ## Claim theorems -/

/-- C1: for every source on which `initialize()` has completed, `messageIterator`
with the full topic set and unrestricted time range yields every ingested
message event exactly once (the yielded events are a permutation of the
bucketed events), in non-decreasing receive-time order; and for every
`(start, end)` range and topic set, the receive time of every yielded event lies
within the inclusive range and its topic is in the requested set (so no message
outside the range is ever yielded). -/
theorem mcap_messageIterator_complete_and_in_range
    (parseCh : ParseChannelFn) (size : Nat) (records : List McapRecord)
    (ini : Initialization) (st : SourceState)
    (h : initializeSource parseCh size records = .ok (ini, st)) :
    (((messageIterator st (ini.topics.map fun tp => tp.name) none none).map
        fun r => r.msgEvent).Perm (scanEvents st) ∧
      List.Pairwise (fun a b : IterResult =>
        timeCompare a.msgEvent.receiveTime b.msgEvent.receiveTime ≤ 0)
        (messageIterator st (ini.topics.map fun tp => tp.name) none none)) ∧
    ∀ (topics : List String) (a b : Time) (r : IterResult),
      r ∈ messageIterator st topics (some a) (some b) →
        isTimeInRangeInclusive r.msgEvent.receiveTime a b = true ∧
          topics.contains r.msgEvent.topic = true := by
  unfold initializeSource at h
  by_cases hsz : size > 1024 * 1024 * 1024
  · rw [if_pos hsz] at h
    exact Except.noConfusion h
  · rw [if_neg hsz] at h
    cases hpa : processAll parseCh initialInitState records with
    | error e =>
      rw [hpa] at h
      exact Except.noConfusion h
    | ok s =>
      rw [hpa, Except.ok.injEq, Prod.mk.injEq] at h
      obtain ⟨hini, hst⟩ := h
      subst hini
      subst hst
      have htop : (buildInitialization s).topics.map (fun tp => tp.name) =
          (s.channelInfoById.map Prod.snd).map fun info => info.channel.topic := by
        have h0 : (buildInitialization s).topics =
            (s.channelInfoById.map Prod.snd).map (fun info =>
              { name := info.channel.topic
                messageEncoding := info.channel.messageEncoding
                schemaName := info.schemaName
                schemaData := info.schemaData
                schemaEncoding := info.schemaEncoding : TopicWithDecodingInfo }) := rfl
        rw [h0, List.map_map]
        rfl
      rw [htop]
      obtain ⟨hperm, hsorted⟩ := messageIterator_full hpa
      refine ⟨⟨hperm, hsorted⟩, ?_⟩
      intro topics a b r hr
      exact mem_messageIterator hr

/-- C1 witness: a concrete initialized source on which the full-topic,
unrestricted iterator is a permutation of the ingested events. -/
theorem mcap_c1_witness :
    ((messageIterator exStBackfill (exIniBackfill.topics.map fun tp => tp.name) none none).map
      fun r => r.msgEvent).Perm (scanEvents exStBackfill) :=
  (mcap_messageIterator_complete_and_in_range okParse 0 exRecordsBackfill
    exIniBackfill exStBackfill rfl).1.1

/-- C2 counterexample: with two messages on `/a` at 5 ns then 3 ns (file order),
`getBackfillMessages({"/a"}, 10 ns)` returns the 3 ns event, although the 5 ns
event also qualifies (receive time ≤ 10 ns) and is strictly later — so the
returned event is not the one with the latest receive time `≤ t`. -/
theorem mcap_backfill_not_latest_cex :
    (getBackfillMessages exStBackfill ["/a"] (fromNanoSec 10)).map
        (fun m => m.receiveTime) = [fromNanoSec 3] ∧
    (scanEvents exStBackfill).map (fun m => (m.topic, m.receiveTime)) =
      [("/a", fromNanoSec 5), ("/a", fromNanoSec 3)] ∧
    timeCompare (fromNanoSec 5) (fromNanoSec 10) ≤ 0 ∧
    timeCompare (fromNanoSec 3) (fromNanoSec 5) < 0 := by
  refine ⟨rfl, rfl, by decide, by decide⟩

/-- C2 (amended): `getBackfillMessages` returns exactly one event per requested
topic that has at least one qualifying message (receive time ≤ t); the returned
event for a topic is the LAST qualifying event in scan order (bucket insertion
order, then file order within a bucket) — which is the latest-receive-time
qualifying event only when the scan is time-ordered; topics with no qualifying
message are silently omitted. -/
theorem mcap_backfill_last_qualifying (st : SourceState) (topics : List String) (t : Time) :
    ((getBackfillMessages st topics t).map fun m => m.topic).Nodup ∧
    ∀ m : MessageEvent, m ∈ getBackfillMessages st topics t ↔
      lastWith (fun x => backfillQual topics t x && (x.topic == m.topic))
        (scanEvents st) = some m := by
  obtain ⟨hkv, hnd⟩ := backfillMap_kv_nodup st topics t
  constructor
  · rw [getBackfillMessages_eq_map, List.map_map]
    have hmap : (backfillMap st topics t).map ((fun m => m.topic) ∘ Prod.snd) =
        (backfillMap st topics t).map Prod.fst :=
      List.map_congr_left fun q hq => hkv q hq
    rw [hmap]
    exact hnd
  · intro m
    exact mem_getBackfillMessages_iff st topics t m

/-- C2 witness: on the concrete source the backfill result has duplicate-free
topics. -/
theorem mcap_c2_witness :
    ((getBackfillMessages exStBackfill ["/a"] (fromNanoSec 10)).map fun m => m.topic).Nodup :=
  (mcap_backfill_last_qualifying exStBackfill ["/a"] (fromNanoSec 10)).1

/-- C3 counterexample: channel id 1 first appears with an unparseable encoding
(so the id lands in the errored set without being registered), then reappears
with different content (different topic, schema id and encoding) — yet
`initialize()` succeeds: a differing second Channel record with the same id
does NOT always cause a fatal failure. -/
theorem mcap_channel_redefinition_cex :
    exChannelBad2.id = exChannelBad.id ∧ exChannelBad ≠ exChannelBad2 ∧
    (initializeSource badParse 0 [.channel exChannelBad, .channel exChannelBad2]).isOk = true := by
  refine ⟨rfl, by decide, rfl⟩

/-- C3 (amended): reprocessing the same Schema or Channel record with identical
content is idempotent (returns the same state: no alert, no failure); a second
Schema record with a shared id but different content always fails fatally; a
second Channel record differing from a REGISTERED channel with the same id
always fails fatally (but a differing record whose id is merely in the errored
set is skipped, see C10); and a `processRecord` error aborts the whole
`processAll` run. -/
theorem mcap_redefinition_policy (parseCh : ParseChannelFn) :
    (∀ (s s1 : InitState) (rec : SchemaRecord),
        processRecord parseCh s (.schema rec) = .ok s1 →
        processRecord parseCh s1 (.schema rec) = .ok s1) ∧
    (∀ (s s1 : InitState) (rec : ChannelRecord),
        processRecord parseCh s (.channel rec) = .ok s1 →
        processRecord parseCh s1 (.channel rec) = .ok s1) ∧
    (∀ (s s1 : InitState) (rec rec2 : SchemaRecord),
        processRecord parseCh s (.schema rec) = .ok s1 → rec2.id = rec.id → rec2 ≠ rec →
        processRecord parseCh s1 (.schema rec2) =
          .error ("differing schemas for id " ++ toString rec2.id)) ∧
    (∀ (s : InitState) (rec rec2 : ChannelRecord) (info : ChannelInfo),
        mapGet s.channelInfoById rec2.id = some info → info.channel = rec → rec2 ≠ rec →
        processRecord parseCh s (.channel rec2) =
          .error ("differing channel infos for id " ++ toString rec2.id)) ∧
    (∀ (s : InitState) (r : McapRecord) (rs : List McapRecord) (e : String),
        processRecord parseCh s r = .error e → processAll parseCh s (r :: rs) = .error e) := by
  refine ⟨?_, ?_, ?_, ?_, ?_⟩
  · intro s s1 rec h
    exact processRecord_schema_idem h
  · intro s s1 rec h
    exact processRecord_channel_idem h
  · intro s s1 rec rec2 h hid hne
    have hreg : mapGet s1.schemasById rec.id = some rec := by
      simp only [processRecord] at h
      cases hg : mapGet s.schemasById rec.id with
      | some ex =>
        simp only [hg] at h
        by_cases heq : ex = rec
        · rw [if_pos heq, Except.ok.injEq] at h
          subst h
          exact mapGet_mapSet_self _ _ _
        · rw [if_neg heq] at h
          exact Except.noConfusion h
      | none =>
        simp only [hg, Except.ok.injEq] at h
        subst h
        exact mapGet_mapSet_self _ _ _
    have hget : mapGet s1.schemasById rec2.id = some rec := by
      rw [hid]
      exact hreg
    exact processRecord_schema_differing hget fun he => hne he.symm
  · intro s rec rec2 info hget hchan hne
    refine processRecord_channel_differing hget ?_
    rw [hchan]
    exact fun he => hne he.symm
  · intro s r rs e h
    exact processAll_cons_error h

/-- C3 witness: reprocessing an identical Schema record leaves the state
unchanged. -/
theorem mcap_c3_witness :
    processRecord badParse exStateSchema (.schema exSchema1) = .ok exStateSchema :=
  (mcap_redefinition_policy badParse).1 initialInitState exStateSchema exSchema1 rfl

/-- C4 counterexample: channel id 1 first errors (unparseable encoding), then a
Channel record with id 1 referencing schema id 9 — for which no Schema record
ever appears — is processed, and `initialize()` still succeeds: the record is
skipped because its id is in the errored set, so the missing-schema failure is
not unconditional. -/
theorem mcap_unresolved_schema_cex :
    exChannelBad2.schemaId ≠ 0 ∧
    ([(.channel exChannelBad : McapRecord), .channel exChannelBad2].filter isSchemaRecord) = [] ∧
    (initializeSource badParse 0 [.channel exChannelBad, .channel exChannelBad2]).isOk = true := by
  refine ⟨by decide, rfl, rfl⟩

/-- C4 (amended): a Channel record referencing a nonzero schema id with no
previously-seen Schema record makes `processRecord` (hence `initialize()`) fail
fatally, unless the channel id is already in the errored set, in which case the
record is silently skipped. (Since processing is sequential, a schema appearing
only later in the file cannot prevent the failure.) -/
theorem mcap_unresolved_schema_fatal (parseCh : ParseChannelFn) (s : InitState)
    (rec : ChannelRecord) (hinfo : mapGet s.channelInfoById rec.id = none)
    (hsid : rec.schemaId ≠ 0) (hschema : mapGet s.schemasById rec.schemaId = none) :
    processRecord parseCh s (.channel rec) =
      if rec.id ∈ s.channelIdsWithErrors then .ok s
      else .error ("Encountered channel with schema id " ++ toString rec.schemaId ++
        " but no prior schema") := by
  simp only [processRecord, hinfo]
  by_cases herr : rec.id ∈ s.channelIdsWithErrors
  · rw [if_pos herr, if_pos herr]
  · rw [if_neg herr, if_neg herr, if_pos ⟨hsid, hschema⟩]

/-- C4 witness: in the empty state a Channel referencing the never-seen schema
id 9 fails with the missing-schema error. -/
theorem mcap_c4_witness :
    processRecord badParse initialInitState (.channel exChannelBad2) =
      (if exChannelBad2.id ∈ initialInitState.channelIdsWithErrors then .ok initialInitState
       else .error ("Encountered channel with schema id " ++ toString exChannelBad2.schemaId ++
        " but no prior schema")) :=
  mcap_unresolved_schema_fatal badParse initialInitState exChannelBad2 rfl (by decide) rfl

/-- C5: a Message record whose channel id has no registered channel info or no
message bucket is silently dropped (state unchanged, processing continues) when
the id is in the errored set, and otherwise aborts `initialize()` fatally with
the message-precedes-channel protocol violation. -/
theorem mcap_message_without_channel (parseCh : ParseChannelFn) (s : InitState)
    (rec : MessageRecord)
    (h : mapGet s.channelInfoById rec.channelId = none ∨
      mapGet s.messagesByChannel rec.channelId = none) :
    processRecord parseCh s (.message rec) =
      if rec.channelId ∈ s.channelIdsWithErrors then .ok s
      else .error ("message for channel " ++ toString rec.channelId ++
        " with no prior channel info") := by
  simp only [processRecord]
  cases hc : mapGet s.channelInfoById rec.channelId with
  | none => rfl
  | some info =>
    cases hb : mapGet s.messagesByChannel rec.channelId with
    | none => rfl
    | some msgs =>
      rcases h with h1 | h1
      · rw [hc] at h1
        exact Option.noConfusion h1
      · rw [hb] at h1
        exact Option.noConfusion h1

/-- C5 witness: in the empty state a Message on channel 1 fails with the
protocol-violation error (channel 1 is not errored there). -/
theorem mcap_c5_witness :
    processRecord okParse initialInitState
        (.message { channelId := 1, logTime := 5, publishTime := 5, data := [1] }) =
      (if 1 ∈ initialInitState.channelIdsWithErrors then .ok initialInitState
       else .error ("message for channel " ++ toString (1 : Nat) ++
        " with no prior channel info")) :=
  mcap_message_without_channel okParse initialInitState
    { channelId := 1, logTime := 5, publishTime := 5, data := [1] } (Or.inl rfl)

/-- C6: a declared size above the 1 GiB ceiling makes `initialize()` fail with
the error naming the 1 GB limit, without depending on the stream contents
(no bytes are consumed); at or below the ceiling the guard never fires and the
result is exactly that of processing the records. -/
theorem mcap_size_guard (parseCh : ParseChannelFn) (size : Nat)
    (records records2 : List McapRecord) :
    (size > 1024 * 1024 * 1024 →
      initializeSource parseCh size records =
        .error "Unable to open unindexed MCAP file; unindexed files are limited to 1GB" ∧
      initializeSource parseCh size records = initializeSource parseCh size records2) ∧
    (¬ size > 1024 * 1024 * 1024 →
      initializeSource parseCh size records =
        match processAll parseCh initialInitState records with
        | .error e => .error e
        | .ok s => .ok (buildInitialization s, sourceStateAfter s)) := by
  constructor
  · intro hsz
    constructor
    · simp only [initializeSource, if_pos hsz]
    · simp only [initializeSource, if_pos hsz]
  · intro hsz
    simp only [initializeSource, if_neg hsz]

/-- C6 witness: one byte above the ceiling fails with the limit error; exactly
at the ceiling the guard does not fire. -/
theorem mcap_c6_witness :
    initializeSource okParse 1073741825 [] =
      .error "Unable to open unindexed MCAP file; unindexed files are limited to 1GB" ∧
    initializeSource okParse 1073741824 [] =
      (match processAll okParse initialInitState [] with
       | .error e => .error e
       | .ok s => .ok (buildInitialization s, sourceStateAfter s)) :=
  ⟨((mcap_size_guard okParse 1073741825 [] []).1 (by decide)).1,
    (mcap_size_guard okParse 1073741824 [] []).2 (by decide)⟩

/-- C7: no event returned by `getBackfillMessages` has a receive time greater
than the query time. -/
theorem mcap_backfill_no_future (st : SourceState) (topics : List String) (t : Time)
    (m : MessageEvent) (h : m ∈ getBackfillMessages st topics t) :
    timeCompare m.receiveTime t ≤ 0 := by
  have hlw := (mem_getBackfillMessages_iff st topics t m).mp h
  obtain ⟨_, hp⟩ := lastWith_some hlw
  rw [Bool.and_eq_true] at hp
  obtain ⟨hq, _⟩ := hp
  simp only [backfillQual, Bool.and_eq_true, decide_eq_true_eq] at hq
  exact hq.1

/-- C7 witness: the event in the concrete backfill result is at or before the query
time. -/
theorem mcap_c7_witness : timeCompare exEvent3.receiveTime (fromNanoSec 10) ≤ 0 :=
  mcap_backfill_no_future exStBackfill ["/a"] (fromNanoSec 10) exEvent3 (by decide)

/-- C8: `messageIterator` is deterministic — the model is a pure function of
the captured source state and the arguments, so two calls with identical
arguments yield identical (deep-equal) sequences; deep copies are value
copies in the pure model. -/
theorem mcap_messageIterator_deterministic (st st2 : SourceState) (topics topics2 : List String)
    (a a2 b b2 : Option Time) (hst : st = st2) (htp : topics = topics2)
    (ha : a = a2) (hb : b = b2) :
    messageIterator st topics a b = messageIterator st2 topics2 a2 b2 := by
  rw [hst, htp, ha, hb]

/-- C8 witness: two identical calls on the concrete source agree. -/
theorem mcap_c8_witness :
    messageIterator exStBackfill ["/a"] none none =
      messageIterator exStBackfill ["/a"] none none :=
  mcap_messageIterator_deterministic exStBackfill exStBackfill ["/a"] ["/a"]
    none none none none rfl rfl rfl rfl

/-- C9: when several registered channels share a topic, the per-topic stats
entry built by `initialize()` holds the message count of the channel
enumerated last in registration order — each channel overwrites the
entry of its topic, so the entry is not the sum across channels. -/
theorem mcap_topicStats_last_channel_wins (s : InitState)
    (l1 l2 : List (Nat × ChannelInfo)) (cid : Nat) (info : ChannelInfo)
    (msgs : List MessageEvent)
    (hsplit : s.channelInfoById = l1 ++ (cid, info) :: l2)
    (hlast : ∀ q ∈ l2, q.2.channel.topic ≠ info.channel.topic)
    (hbucket : mapGet s.messagesByChannel info.channel.id = some msgs) :
    mapGet (buildInitialization s).topicStats info.channel.topic = some msgs.length := by
  rw [buildInitialization_topicStats, statsFold_get, hsplit, List.map_append, List.map_cons,
    lastWith_append]
  have hnone : lastWith (fun i =>
      (mapGet s.messagesByChannel i.channel.id).isSome && (i.channel.topic == info.channel.topic))
      (l2.map Prod.snd) = none := by
    apply lastWith_eq_none
    intro x hx
    rcases List.mem_map.mp hx with ⟨q, hq, hqx⟩
    subst hqx
    have hne := hlast q hq
    rw [beq_eq_false_iff_ne.mpr hne]
    exact Bool.and_false _
  have hcons : lastWith (fun i =>
      (mapGet s.messagesByChannel i.channel.id).isSome && (i.channel.topic == info.channel.topic))
      (info :: l2.map Prod.snd) = some info := by
    simp only [lastWith, hnone, hbucket]
    simp
  rw [hcons]
  show (mapGet s.messagesByChannel info.channel.id).map List.length = some msgs.length
  rw [hbucket]
  rfl

/-- C9 witness: two channels (ids 1 and 2) share topic `/a`; channel 1 holds
two messages, channel 2 one message; the stats entry for `/a` is 1 (the count
of channel 2, the one registered last). -/
theorem mcap_c9_witness :
    mapGet (buildInitialization exState9).topicStats "/a" = some 1 :=
  mcap_topicStats_last_channel_wins exState9 [(1, exInfo1)] [] 2 exInfo2 [exEvent7]
    (by decide) (fun q hq => absurd hq (List.not_mem_nil q)) (by decide)

/-- C10: once a channel id is in the errored set (and reachable states never
register an errored id), every later Channel record bearing that id is skipped
with the state unchanged — even with different content it never triggers the
fatal differing-channel-infos error — and for the rest of the file the id can
never become registered while staying in the errored set. -/
theorem mcap_errored_channel_skipped (parseCh : ParseChannelFn) (records : List McapRecord)
    (s : InitState) (h : processAll parseCh initialInitState records = .ok s)
    (cid : Nat) (hmem : cid ∈ s.channelIdsWithErrors) :
    (∀ rec : ChannelRecord, rec.id = cid → processRecord parseCh s (.channel rec) = .ok s) ∧
    (∀ (rs : List McapRecord) (s2 : InitState), processAll parseCh s rs = .ok s2 →
      mapGet s2.channelInfoById cid = none ∧ cid ∈ s2.channelIdsWithErrors) := by
  have inv := processAll_initInv h initInv_initial
  have hinfo := inv.erroredUnregistered cid hmem
  constructor
  · intro rec hid
    subst hid
    exact processRecord_errored_skip hinfo hmem
  · intro rs s2 h2
    obtain ⟨hm2, hi2⟩ := processAll_errored_persist h2 hmem hinfo
    exact ⟨hi2, hm2⟩

/-- C10 witness: after channel 1 errored, a differing Channel record with id 1
is skipped, leaving the state unchanged. -/
theorem mcap_c10_witness :
    processRecord badParse exStateErr (.channel exChannelBad2) = .ok exStateErr :=
  (mcap_errored_channel_skipped badParse [.channel exChannelBad] exStateErr rfl 1
    (by decide)).1 exChannelBad2 rfl
